import Mathlib

/-!
Verification of the QuelPoke service core (`main.go`) against its
natural-language specification.

The Go source is shallowly embedded: machine integers become `Nat`/`Int`
with explicit reductions modulo `2 ^ 32` / `2 ^ 64` where Go overflow
semantics matter, byte strings become `List Nat` of byte values, fallible
operations return `Except`/`Option`, and the network boundary is
represented by passing the (already fetched and decoded, or failed)
remote responses as explicit arguments to the pure request logic.
-/

namespace QuelPoke

/-! ### SHA-1 (model of Go `crypto/sha1`, used by `pokemonID`)

A byte-level implementation of FIPS 180 SHA-1 over `List Nat`
(each element a byte value), mirroring what `sha1.New` /
`hasher.Write([]byte(name))` / `hasher.Sum(nil)` computes in `main.go`.
All 32-bit words are `Nat` reduced modulo `2 ^ 32`. -/

/-- Rotate a 32-bit word (a `Nat` below `2 ^ 32`) left by `s` bits. -/
def rotl32 (x s : Nat) : Nat := ((x <<< s) % 4294967296) ||| (x >>> (32 - s))

/-- Big-endian 4-byte encoding of a 32-bit word. -/
def be4 (n : Nat) : List Nat :=
  [(n >>> 24) % 256, (n >>> 16) % 256, (n >>> 8) % 256, n % 256]

/-- Big-endian 8-byte encoding of a 64-bit length field. -/
def be8 (n : Nat) : List Nat :=
  [(n >>> 56) % 256, (n >>> 48) % 256, (n >>> 40) % 256, (n >>> 32) % 256,
   (n >>> 24) % 256, (n >>> 16) % 256, (n >>> 8) % 256, n % 256]

/-- Group a byte list into big-endian 32-bit words (4 bytes per word). -/
def wordsBE : List Nat → List Nat
  | b0 :: b1 :: b2 :: b3 :: rest =>
      ((b0 <<< 24) ||| (b1 <<< 16) ||| (b2 <<< 8) ||| b3) :: wordsBE rest
  | _ => []

/-- SHA-1 padding: append `0x80`, then zero bytes up to 56 mod 64, then the
bit length as a big-endian 64-bit integer. The result length is a multiple
of 64. -/
def sha1Pad (msg : List Nat) : List Nat :=
  msg ++ [128] ++ List.replicate ((119 - msg.length % 64) % 64) 0 ++ be8 (8 * msg.length)

/-- Message-schedule extension: push `k` further words, each the left
rotation by 1 of the xor of the words 3, 8, 14 and 16 positions back. -/
def extendW (w : Array Nat) : Nat → Array Nat
  | 0 => w
  | k + 1 =>
      extendW (w.push (rotl32 ((w.getD (w.size - 3) 0) ^^^ (w.getD (w.size - 8) 0) ^^^
        (w.getD (w.size - 14) 0) ^^^ (w.getD (w.size - 16) 0)) 1)) k

/-- Round function of SHA-1 (choice / parity / majority / parity). -/
def sha1F (i b c d : Nat) : Nat :=
  if i < 20 then (b &&& c) ||| ((b ^^^ 4294967295) &&& d)
  else if i < 40 then b ^^^ c ^^^ d
  else if i < 60 then (b &&& c) ||| (b &&& d) ||| (c &&& d)
  else b ^^^ c ^^^ d

/-- Round constants of SHA-1. -/
def sha1K (i : Nat) : Nat :=
  if i < 20 then 1518500249
  else if i < 40 then 1859775393
  else if i < 60 then 2400959708
  else 3395469782

/-- The five 32-bit words of SHA-1 chaining state. -/
structure SHA1H where
  h0 : Nat
  h1 : Nat
  h2 : Nat
  h3 : Nat
  h4 : Nat
deriving Repr, DecidableEq

/-- Compression of one 64-byte block into the chaining state. -/
def sha1Compress (h : SHA1H) (block : List Nat) : SHA1H :=
  let w := extendW (Array.mk (wordsBE block)) 64
  let st := (List.range 80).foldl
    (fun (st : Nat × Nat × Nat × Nat × Nat) i =>
      let a := st.1
      let b := st.2.1
      let c := st.2.2.1
      let d := st.2.2.2.1
      let e := st.2.2.2.2
      ((rotl32 a 5 + sha1F i b c d + e + sha1K i + w.getD i 0) % 4294967296,
       a, rotl32 b 30, c, d))
    (h.h0, h.h1, h.h2, h.h3, h.h4)
  ⟨(h.h0 + st.1) % 4294967296, (h.h1 + st.2.1) % 4294967296,
   (h.h2 + st.2.2.1) % 4294967296, (h.h3 + st.2.2.2.1) % 4294967296,
   (h.h4 + st.2.2.2.2) % 4294967296⟩

/-- Fold the compression over `k` consecutive 64-byte blocks of `msg`. -/
def sha1Blocks (h : SHA1H) (msg : List Nat) : Nat → SHA1H
  | 0 => h
  | k + 1 => sha1Blocks (sha1Compress h (msg.take 64)) (msg.drop 64) k

/-- The 20-byte SHA-1 digest of a byte string. -/
def sha1 (msg : List Nat) : List Nat :=
  let p := sha1Pad msg
  let h := sha1Blocks ⟨1732584193, 4023233417, 2562383102, 271733878, 3285377520⟩ p (p.length / 64)
  be4 h.h0 ++ be4 h.h1 ++ be4 h.h2 ++ be4 h.h3 ++ be4 h.h4

/-- UTF-8 encoding of one scalar value, as Go produces for each rune of a
string converted with `[]byte(name)`. -/
def utf8Char (c : Char) : List Nat :=
  let n := c.toNat
  if n < 128 then [n]
  else if n < 2048 then [192 ||| (n >>> 6), 128 ||| (n &&& 63)]
  else if n < 65536 then [224 ||| (n >>> 12), 128 ||| ((n >>> 6) &&& 63), 128 ||| (n &&& 63)]
  else [240 ||| (n >>> 18), 128 ||| ((n >>> 12) &&& 63), 128 ||| ((n >>> 6) &&& 63), 128 ||| (n &&& 63)]

/-- UTF-8 bytes of a string (`[]byte(name)` in Go). -/
def utf8Bytes (s : String) : List Nat := s.data.foldr (fun c acc => utf8Char c ++ acc) []

/-- `binary.BigEndian.Uint64`: the first 8 bytes read as a big-endian
unsigned 64-bit integer. -/
def beUint64 (bs : List Nat) : Nat := (bs.take 8).foldl (fun acc b => acc * 256 + b) 0

/-- Model of `pokemonID` (main.go line 120): the SHA-1 digest of the name,
its first 8 bytes read big-endian, reduced modulo `m`, plus 1. Arithmetic
is uint64 in Go; since `h % m < m ≤ 2 ^ 64 - 1`, the `+ 1` never wraps, so
plain `Nat` arithmetic coincides with it. -/
def pokemonID (name : String) (m : Nat) : Nat := beUint64 (sha1 (utf8Bytes name)) % m + 1

set_option maxRecDepth 100000

/-- SHA-1 test vector: the digest of the empty string matches the standard
value da39a3ee5e6b4b0d3255bfef95601890afd80709, byte for byte. -/
theorem sha1_vector_empty :
    sha1 (utf8Bytes "") =
      [218, 57, 163, 238, 94, 107, 75, 13, 50, 85, 191, 239, 149, 96, 24, 144, 175, 216, 7, 9] := by
  decide

/-- Concrete value of the identifier resolver on the empty name with the
catalog size 151 used by the handler. -/
theorem pokemonID_empty_151 : pokemonID "" 151 = 122 := by decide

/-- C1: for every input string (including the empty string) and every
`m ≥ 1`, `pokemonID name m` is the first 8 bytes of the SHA-1 digest of the
name's UTF-8 bytes read as a big-endian unsigned 64-bit integer, reduced
modulo `m`, plus 1; it is deterministic and always lies in `[1, m]`, with
no error path (the function is total). -/
theorem C1_pokemonID_correct (name : String) (m : Nat) (hm : 1 ≤ m) :
    pokemonID name m = beUint64 ((sha1 (utf8Bytes name)).take 8) % m + 1
    ∧ (∀ name2, name = name2 → pokemonID name m = pokemonID name2 m)
    ∧ 1 ≤ pokemonID name m ∧ pokemonID name m ≤ m := by
  have hb : beUint64 ((sha1 (utf8Bytes name)).take 8) = beUint64 (sha1 (utf8Bytes name)) := by
    simp [beUint64, List.take_take]
  have hlt : beUint64 (sha1 (utf8Bytes name)) % m < m := Nat.mod_lt _ (by omega)
  refine ⟨by rw [pokemonID, hb], fun n2 h => by rw [h], by simp [pokemonID], ?_⟩
  rw [pokemonID]
  omega

/-- Witness for C1 at the concrete input "pikachu", range 151. -/
theorem C1_witness :
    pokemonID "pikachu" 151 = beUint64 ((sha1 (utf8Bytes "pikachu")).take 8) % 151 + 1
    ∧ (∀ name2, "pikachu" = name2 → pokemonID "pikachu" 151 = pokemonID name2 151)
    ∧ 1 ≤ pokemonID "pikachu" 151 ∧ pokemonID "pikachu" 151 ≤ 151 :=
  C1_pokemonID_correct "pikachu" 151 (by decide)

/-! ### Stat normalization (`pokemonStats`, main.go lines 208-216)

The network fetch and JSON decode of `pokemonStats` either fail (modelled
at the handler level by an `Except` argument) or produce an ordered list
of raw entries `(stat name, base_stat)`. The Go `int` is 64-bit two's
complement (the build image is a 64-bit golang:1.21), so products are
wrapped explicitly. -/

/-- Two's complement wrap into the int64 range, modelling Go `int`
arithmetic overflow. -/
def wrapInt64 (x : Int) : Int :=
  (x + 9223372036854775808) % 18446744073709551616 - 9223372036854775808

/-- Percent computation of the loop body of `pokemonStats`:
`percent := 0; if s.Base > 0 { percent = s.Base * 100 / 255 }` with Go
int64 multiplication (wrapping) and Go truncating integer division. -/
def statPercent (base : Int) : Int :=
  if base > 0 then Int.tdiv (wrapInt64 (base * 100)) 255 else 0

/-- Stat record produced by `pokemonStats` (main.go line 33). -/
structure Stat where
  name : String
  base : Int
  percent : Int
deriving Repr, DecidableEq

/-- Output-building loop of `pokemonStats` on the decoded stats array:
one `Stat` per raw entry, in order, with the computed percent. -/
def pokemonStats (raw : List (String × Int)) : List Stat :=
  raw.map (fun s => ⟨s.1, s.2, statPercent s.2⟩)

/-- Truncating division agrees with floor division on nonnegative
operands. -/
theorem tdiv_eq_ediv_of_nonneg (a b : Int) (ha : 0 ≤ a) (hb : 0 ≤ b) :
    Int.tdiv a b = a / b := by
  obtain ⟨m, rfl⟩ := Int.eq_ofNat_of_zero_le ha
  obtain ⟨n, rfl⟩ := Int.eq_ofNat_of_zero_le hb
  rw [← Int.ofNat_tdiv, ← Int.ofNat_ediv]

/-- Wrapping is the identity inside the int64 range. -/
theorem wrapInt64_eq_self (x : Int) (hlo : -9223372036854775808 ≤ x)
    (hhi : x < 9223372036854775808) : wrapInt64 x = x := by
  unfold wrapInt64
  omega

/-- C2 (amended): the per-stat percent of `pokemonStats` implements the
normalize contract whenever `base * 100` stays inside int64: for
`base ≤ 0` the percent is 0, otherwise it is `⌊base * 100 / 255⌋`
(truncating division, which agrees with floor on this positive numerator);
in particular 0 ↦ 0, -5 ↦ 0, 255 ↦ 100, 100 ↦ 39 (truncated, not
rounded), and every `Stat` built by `pokemonStats` carries exactly this
percent of its base. For `base * 100 ≥ 2 ^ 63` the Go product wraps and
the claimed floor formula fails (see the counterexample). -/
theorem C2_statPercent_normalize (base : Int) (hhi : base * 100 < 9223372036854775808) :
    (base ≤ 0 → statPercent base = 0)
    ∧ (0 < base → statPercent base = base * 100 / 255)
    ∧ statPercent 0 = 0 ∧ statPercent (-5) = 0
    ∧ statPercent 255 = 100 ∧ statPercent 100 = 39
    ∧ (∀ raw, ∀ s ∈ pokemonStats raw, s.percent = statPercent s.base) := by
  refine ⟨fun h => by simp [statPercent, not_lt.mpr h], fun h => ?_,
    by decide, by decide, by decide, by decide, fun raw s hs => ?_⟩
  · have h100 : 0 ≤ base * 100 := by positivity
    rw [statPercent, if_pos h, wrapInt64_eq_self _ (by omega) hhi,
      tdiv_eq_ediv_of_nonneg _ _ h100 (by omega)]
  · simp only [pokemonStats, List.mem_map] at hs
    obtain ⟨a, _, rfl⟩ := hs
    rfl

/-- Witness for C2 at base 100. -/
theorem C2_witness :
    ((100 : Int) ≤ 0 → statPercent 100 = 0)
    ∧ (0 < (100 : Int) → statPercent 100 = 100 * 100 / 255)
    ∧ statPercent 0 = 0 ∧ statPercent (-5) = 0
    ∧ statPercent 255 = 100 ∧ statPercent 100 = 39
    ∧ (∀ raw, ∀ s ∈ pokemonStats raw, s.percent = statPercent s.base) :=
  C2_statPercent_normalize 100 (by norm_num)

/-- Counterexample to C2 as stated: at the smallest positive int64 base
whose product with 100 overflows int64, the code's percent is negative
while the floor formula of the claim is a large positive number. -/
theorem C2_counterexample :
    0 < (92233720368547759 : Int)
    ∧ statPercent 92233720368547759 = -36170086419038336
    ∧ (92233720368547759 : Int) * 100 / 255 = 36170086419038336
    ∧ statPercent 92233720368547759 ≠ 92233720368547759 * 100 / 255 := by
  refine ⟨by norm_num, by decide, by decide, by decide⟩

/-- Counterexample to C3 as stated: a base above 255 (which a decoded
stats response may contain) yields a percent above 100. -/
theorem C3_counterexample : statPercent 300 = 117 ∧ ¬(statPercent 300 ≤ 100) := by
  decide

/-- C3 (amended): the data-model invariant `percent ∈ [0, 100]` holds for
every stat whose base is at most 255 (in particular on the whole
documented stat domain 0..255); bases above 255 escape the upper bound. -/
theorem C3_percent_in_range (base : Int) (h : base ≤ 255) :
    0 ≤ statPercent base ∧ statPercent base ≤ 100 := by
  rcases le_or_lt base 0 with h0 | h0
  · simp [statPercent, not_lt.mpr h0]
  · have h100 : 0 ≤ base * 100 := by positivity
    have hhi : base * 100 < 9223372036854775808 := by nlinarith
    rw [statPercent, if_pos h0, wrapInt64_eq_self _ (by omega) hhi,
      tdiv_eq_ediv_of_nonneg _ _ h100 (by omega)]
    constructor
    · positivity
    · nlinarith [Int.ediv_mul_le (base * 100) (show (255 : Int) ≠ 0 by norm_num),
        Int.lt_ediv_add_one_mul_self (base * 100) (show (0 : Int) < 255 by norm_num)]

/-- Witness for C3 at base 255. -/
theorem C3_witness : 0 ≤ statPercent 255 ∧ statPercent 255 ≤ 100 :=
  C3_percent_in_range 255 (by norm_num)

/-! ### Evolution walk (`pokemonEvolutions`, main.go lines 239-340)

The decoded evolution-chain response is embedded structurally: after the
top-level JSON decode succeeds, the loop state is a `Node` whose children
are `Child` values; a `Child` keeps its own grandchildren as raw JSON
values (Go decodes `evolves_to` of a child into `[]interface{}`). Moving to
the first child re-decodes it (Go marshals `node.EvolvesTo[0]` and
unmarshals it into the node shape); since the marshal/unmarshal round trip
of the typed part is the identity on the represented JSON data, this is
`decodeNode`, which decodes every raw grandchild with `decodeChild`.
The Go JSON field-matching details modelled: unknown fields are ignored,
a missing or null field leaves the zero value, a type-mismatched field is
an error, a later duplicate key overwrites an earlier one (exact-case tag
match; Go additionally falls back to case-insensitive matching, which no
claim here depends on). -/

inductive Json where
  | null
  | bool (b : Bool)
  | num (q : Rat)
  | str (s : String)
  | arr (elems : List Json)
  | obj (fields : List (String × Json))

structure Species where
  name : String
  url : String
deriving Repr, DecidableEq

structure Child where
  species : Species
  evolvesTo : List Json

structure Node where
  species : Species
  evolvesTo : List Child

structure Evolution where
  name : String
  id : Nat
  image : String
deriving Repr, DecidableEq

mutual

def jsonSize : Json → Nat
  | .null => 1
  | .bool _ => 1
  | .num _ => 1
  | .str _ => 1
  | .arr xs => 1 + jsonSizeL xs
  | .obj fs => 1 + jsonSizeF fs

def jsonSizeL : List Json → Nat
  | [] => 0
  | j :: rest => 1 + jsonSize j + jsonSizeL rest

def jsonSizeF : List (String × Json) → Nat
  | [] => 0
  | (_, v) :: rest => 1 + jsonSize v + jsonSizeF rest

end

def getField : List (String × Json) → String → Option Json
  | [], _ => none
  | (k, v) :: rest, key =>
      match getField rest key with
      | some r => some r
      | none => if k = key then some v else none

def decodeStringField (fields : List (String × Json)) (k : String) : Option String :=
  match getField fields k with
  | none => some ""
  | some .null => some ""
  | some (.str s) => some s
  | some _ => none

def decodeSpecies : Json → Option Species
  | .null => some ⟨"", ""⟩
  | .obj fields =>
      match decodeStringField fields "name", decodeStringField fields "url" with
      | some n, some u => some ⟨n, u⟩
      | _, _ => none
  | _ => none

def decodeChild : Json → Option Child
  | .null => some ⟨⟨"", ""⟩, []⟩
  | .obj fields =>
      match (match getField fields "species" with
             | none => some (⟨"", ""⟩ : Species)
             | some v => decodeSpecies v) with
      | none => none
      | some sp =>
          match getField fields "evolves_to" with
          | none => some ⟨sp, []⟩
          | some .null => some ⟨sp, []⟩
          | some (.arr xs) => some ⟨sp, xs⟩
          | some _ => none
  | _ => none

def decodeChildren : List Json → Option (List Child)
  | [] => some []
  | j :: rest =>
      match decodeChild j, decodeChildren rest with
      | some c, some cs => some (c :: cs)
      | _, _ => none

def decodeNode (c : Child) : Option Node :=
  (decodeChildren c.evolvesTo).map (fun cs => ⟨c.species, cs⟩)

def childSize (c : Child) : Nat := 1 + jsonSizeL c.evolvesTo

def nodeSize (n : Node) : Nat := 1 + (n.evolvesTo.map childSize).sum

theorem jsonSizeL_pos_mem {xs : List Json} {x : Json} (h : x ∈ xs) :
    jsonSize x < jsonSizeL xs := by
  induction xs with
  | nil => cases h
  | cons y rest ih =>
      rw [jsonSizeL]
      rcases List.mem_cons.mp h with rfl | hm
      · omega
      · have := ih hm
        omega

theorem getField_mem {fields : List (String × Json)} {key : String} {v : Json}
    (h : getField fields key = some v) : (key, v) ∈ fields := by
  induction fields with
  | nil => simp [getField] at h
  | cons p rest ih =>
      obtain ⟨k1, v1⟩ := p
      rw [getField] at h
      cases hr : getField rest key with
      | some r =>
          rw [hr] at h
          exact List.mem_cons_of_mem _ (ih (hr.trans h))
      | none =>
          rw [hr] at h
          by_cases hk : k1 = key
          · rw [if_pos hk] at h
            cases h
            subst hk
            exact List.mem_cons_self _ _
          · rw [if_neg hk] at h
            cases h

theorem jsonSize_field_lt {fields : List (String × Json)} {key : String} {v : Json}
    (h : getField fields key = some v) : jsonSize v < jsonSize (Json.obj fields) := by
  have hm := getField_mem h
  rw [jsonSize]
  have hf : jsonSize v < jsonSizeF fields := by
    clear h
    induction fields with
    | nil => cases hm
    | cons p rest ih =>
        obtain ⟨k1, v1⟩ := p
        rw [jsonSizeF]
        rcases List.mem_cons.mp hm with heq | hmm
        · cases heq
          omega
        · have := ih hmm
          omega
  omega

theorem jsonSize_pos (j : Json) : 1 ≤ jsonSize j := by
  cases j <;> rw [jsonSize] <;> omega

theorem decodeChild_size {j : Json} {c : Child} (h : decodeChild j = some c) :
    childSize c ≤ jsonSize j := by
  cases j with
  | null =>
      obtain rfl : (⟨⟨"", ""⟩, []⟩ : Child) = c := Option.some.inj h
      show 1 + jsonSizeL [] ≤ jsonSize Json.null
      rw [jsonSizeL, jsonSize]
  | obj fields =>
      rw [decodeChild] at h
      split at h
      · cases h
      · split at h
        · cases h
          show 1 + jsonSizeL [] ≤ jsonSize (Json.obj fields)
          rw [jsonSizeL]
          have := jsonSize_pos (Json.obj fields)
          omega
        · cases h
          show 1 + jsonSizeL [] ≤ jsonSize (Json.obj fields)
          rw [jsonSizeL]
          have := jsonSize_pos (Json.obj fields)
          omega
        · cases h
          rename_i sp _ xs hev
          have hlt := jsonSize_field_lt hev
          rw [jsonSize] at hlt
          show 1 + jsonSizeL xs ≤ jsonSize (Json.obj fields)
          omega
        · cases h
  | bool b => exact Option.noConfusion h
  | num q => exact Option.noConfusion h
  | str s => exact Option.noConfusion h
  | arr xs => exact Option.noConfusion h

theorem decodeChildren_size {js : List Json} {cs : List Child}
    (h : decodeChildren js = some cs) : (cs.map childSize).sum ≤ jsonSizeL js := by
  induction js generalizing cs with
  | nil =>
      rw [decodeChildren] at h
      cases h
      simp [jsonSizeL]
  | cons j rest ih =>
      rw [decodeChildren] at h
      split at h
      · cases h
        rename_i c cs2 hc hcs
        have h1 := decodeChild_size hc
        have h2 := ih hcs
        rw [jsonSizeL]
        simp only [List.map_cons, List.sum_cons]
        omega
      · cases h

theorem decodeNode_size {c : Child} {n : Node} (h : decodeNode c = some n) :
    nodeSize n ≤ childSize c := by
  rw [decodeNode] at h
  cases hd : decodeChildren c.evolvesTo with
  | none => rw [hd] at h; cases h
  | some cs =>
      rw [hd] at h
      cases h
      have := decodeChildren_size hd
      show 1 + (cs.map childSize).sum ≤ 1 + jsonSizeL c.evolvesTo
      omega

def parseUint64 (s : String) : Option Nat :=
  if s.length = 0 then none
  else if s.data.all (fun c => c.isDigit) then
    let v := s.data.foldl (fun acc c => acc * 10 + (c.toNat - 48)) 0
    if v < 18446744073709551616 then some v else none
  else none

def trimSlashRight (s : List Char) : List Char :=
  (s.reverse.dropWhile (fun c => c = '/')).reverse

def splitOnSlash : List Char → List (List Char)
  | [] => [[]]
  | c :: rest =>
      let r := splitOnSlash rest
      if c = '/' then [] :: r
      else (c :: r.headD []) :: r.tail

def lastSegment (url : String) : String :=
  String.mk ((splitOnSlash (trimSlashRight url.data)).getLastD [])

def evoOf (sp : Species) : Evolution :=
  let spid := match parseUint64 (lastSegment sp.url) with
              | some v => v
              | none => 0
  let img := if spid > 0 then
      "https://raw.githubusercontent.com/PokeAPI/sprites/master/sprites/pokemon/other/official-artwork/" ++ toString spid ++ ".png"
    else ""
  ⟨sp.name, spid, img⟩

def walkNode (n : Node) : List Evolution :=
  match h : n.evolvesTo with
  | [] => [evoOf n.species]
  | c :: _ =>
      match h2 : decodeNode c with
      | none => [evoOf n.species]
      | some n2 => evoOf n.species :: walkNode n2
termination_by nodeSize n
decreasing_by
  have h1 := decodeNode_size h2
  simp only [nodeSize, h, List.map_cons, List.sum_cons] at h1 ⊢
  omega

theorem walkNode_nil {n : Node} (h : n.evolvesTo = []) :
    walkNode n = [evoOf n.species] := by
  rw [walkNode]
  split
  · rfl
  · rename_i c tl heq
    rw [h] at heq
    cases heq

theorem walkNode_cons_fail {n : Node} {c : Child} {tl : List Child}
    (h : n.evolvesTo = c :: tl) (h2 : decodeNode c = none) :
    walkNode n = [evoOf n.species] := by
  rw [walkNode]
  split
  · rfl
  · rename_i c2 tl2 heq
    rw [h] at heq
    cases heq
    split
    · rfl
    · rename_i n3 hd
      rw [h2] at hd
      cases hd

theorem walkNode_cons_ok {n : Node} {c : Child} {tl : List Child} {n2 : Node}
    (h : n.evolvesTo = c :: tl) (h2 : decodeNode c = some n2) :
    walkNode n = evoOf n.species :: walkNode n2 := by
  rw [walkNode]
  split
  · rename_i heq
    rw [h] at heq
    cases heq
  · rename_i c2 tl2 heq
    rw [h] at heq
    cases heq
    split
    · rename_i hd
      rw [h2] at hd
      cases hd
    · rename_i n3 hd
      rw [h2] at hd
      cases hd
      rfl

theorem walkNode_length (n : Node) : (walkNode n).length ≤ nodeSize n := by
  have H : ∀ (k : Nat) (m : Node), nodeSize m ≤ k → (walkNode m).length ≤ nodeSize m := by
    intro k
    induction k with
    | zero =>
        intro m hm
        simp [nodeSize] at hm
    | succ k ih =>
        intro m hm
        cases hev : m.evolvesTo with
        | nil =>
            rw [walkNode_nil hev]
            simp [nodeSize]
        | cons c tl =>
            cases hd : decodeNode c with
            | none =>
                rw [walkNode_cons_fail hev hd]
                simp [nodeSize]
            | some n2 =>
                rw [walkNode_cons_ok hev hd]
                have h1 := decodeNode_size hd
                have h2 : nodeSize m = 1 + (childSize c + (tl.map childSize).sum) := by
                  simp [nodeSize, hev]
                have h3 := ih n2 (by omega)
                simp only [List.length_cons]
                omega
  exact H (nodeSize n) n le_rfl

def speciesJson (sp : Species) : Json := .obj [("name", .str sp.name), ("url", .str sp.url)]

def linChainJson : Species → List Species → Json
  | sp, [] => .obj [("species", speciesJson sp), ("evolves_to", .arr [])]
  | sp, sp2 :: rest => .obj [("species", speciesJson sp), ("evolves_to", .arr [linChainJson sp2 rest])]

def linChainChild (sp : Species) (rest : List Species) : Child :=
  ⟨sp, match rest with
       | [] => []
       | sp2 :: r => [linChainJson sp2 r]⟩

def linChainNode (sp : Species) (rest : List Species) : Node :=
  ⟨sp, match rest with
       | [] => []
       | sp2 :: r => [linChainChild sp2 r]⟩

theorem decodeSpecies_speciesJson (sp : Species) : decodeSpecies (speciesJson sp) = some sp := by
  simp [speciesJson, decodeSpecies, decodeStringField, getField]

theorem decodeChild_linChainJson (sp : Species) (rest : List Species) :
    decodeChild (linChainJson sp rest) = some (linChainChild sp rest) := by
  cases rest with
  | nil => simp [linChainJson, decodeChild, getField, decodeSpecies_speciesJson, linChainChild]
  | cons sp2 r => simp [linChainJson, decodeChild, getField, decodeSpecies_speciesJson, linChainChild]

theorem decodeNode_linChainChild (sp : Species) (rest : List Species) :
    decodeNode (linChainChild sp rest) = some (linChainNode sp rest) := by
  cases rest with
  | nil => rfl
  | cons sp2 r =>
      simp [linChainChild, decodeNode, decodeChildren, decodeChild_linChainJson, linChainNode]

theorem walk_linChain (rest : List Species) (sp : Species) :
    walkNode (linChainNode sp rest) = (sp :: rest).map evoOf := by
  induction rest generalizing sp with
  | nil => rw [walkNode_nil rfl]; rfl
  | cons sp2 r ih =>
      rw [walkNode_cons_ok rfl (decodeNode_linChainChild sp2 r)]
      rw [ih sp2]
      rfl

/-- Model of `pokemonEvolutions` at the network boundary: `chainRes` is
the combined outcome of fetching the species resource, following its
evolution-chain URL and decoding the chain response (main.go lines
241-288); an error there propagates, and a decoded chain is walked with
no further error path (main.go lines 290-339). -/
def pokemonEvolutions (chainRes : Except String Node) : Except String (List Evolution) :=
  match chainRes with
  | .error e => .error e
  | .ok chain => .ok (walkNode chain)

/-- Head of the walk: the root species is always emitted first. -/
theorem walkNode_head (n : Node) : (walkNode n).head? = some (evoOf n.species) := by
  cases hev : n.evolvesTo with
  | nil => rw [walkNode_nil hev]; rfl
  | cons c tl =>
      cases hd : decodeNode c with
      | none => rw [walkNode_cons_fail hev hd]; rfl
      | some n2 => rw [walkNode_cons_ok hev hd]; rfl

/-- The walk never returns the empty list. -/
theorem walkNode_ne_nil (n : Node) : walkNode n ≠ [] := by
  cases hev : n.evolvesTo with
  | nil => rw [walkNode_nil hev]; simp
  | cons c tl =>
      cases hd : decodeNode c with
      | none => rw [walkNode_cons_fail hev hd]; simp
      | some n2 => rw [walkNode_cons_ok hev hd]; simp

/-- A species URL whose trailing path segment does not parse as an
unsigned 64-bit integer yields identifier 0 and an empty image URL. -/
theorem evoOf_parse_fail {sp : Species} (h : parseUint64 (lastSegment sp.url) = none) :
    evoOf sp = ⟨sp.name, 0, ""⟩ := by
  simp [evoOf, h]

/-- C4: the evolution walk follows only the first child at each branch
point: a linear chain is returned whole and in order, root first; with
two or more children the result is the same whatever the later siblings
are (they are silently dropped) and, when the first child re-decodes, the
output is the root followed by the walk of that child's subtree; a node
with no children ends the traversal. -/
theorem C4_first_branch_walk :
    (∀ sp rest, walkNode (linChainNode sp rest) = (sp :: rest).map evoOf)
    ∧ (∀ sp c cs cs2, walkNode ⟨sp, c :: cs⟩ = walkNode ⟨sp, c :: cs2⟩)
    ∧ (∀ sp c cs n2, decodeNode c = some n2 →
        walkNode ⟨sp, c :: cs⟩ = evoOf sp :: walkNode n2)
    ∧ (∀ sp, walkNode ⟨sp, []⟩ = [evoOf sp]) := by
  refine ⟨fun sp rest => walk_linChain rest sp, fun sp c cs cs2 => ?_,
    fun sp c cs n2 hd =>
      walkNode_cons_ok (show Node.evolvesTo ⟨sp, c :: cs⟩ = c :: cs from rfl) hd,
    fun sp => walkNode_nil rfl⟩
  cases hd : decodeNode c with
  | none =>
      rw [walkNode_cons_fail (show Node.evolvesTo ⟨sp, c :: cs⟩ = c :: cs from rfl) hd,
        walkNode_cons_fail (show Node.evolvesTo ⟨sp, c :: cs2⟩ = c :: cs2 from rfl) hd]
  | some n2 =>
      rw [walkNode_cons_ok (show Node.evolvesTo ⟨sp, c :: cs⟩ = c :: cs from rfl) hd,
        walkNode_cons_ok (show Node.evolvesTo ⟨sp, c :: cs2⟩ = c :: cs2 from rfl) hd]

/-- Witness for C4: a concrete 3-node linear chain is returned whole and
in order; a second sibling does not change the result; with a decodable
first child the root is followed by that child's walk; a leaf yields only
itself. -/
theorem C4_witness :
    walkNode (linChainNode ⟨"bulbizarre", "https://pokeapi.co/api/v2/pokemon-species/1/"⟩
        [⟨"herbizarre", "https://pokeapi.co/api/v2/pokemon-species/2/"⟩,
         ⟨"florizarre", "https://pokeapi.co/api/v2/pokemon-species/3/"⟩]) =
      [evoOf ⟨"bulbizarre", "https://pokeapi.co/api/v2/pokemon-species/1/"⟩,
       evoOf ⟨"herbizarre", "https://pokeapi.co/api/v2/pokemon-species/2/"⟩,
       evoOf ⟨"florizarre", "https://pokeapi.co/api/v2/pokemon-species/3/"⟩]
    ∧ walkNode ⟨⟨"evoli", "https://x/133/"⟩,
        [linChainChild ⟨"aquali", "https://x/134/"⟩ [],
         linChainChild ⟨"voltali", "https://x/135/"⟩ []]⟩ =
      walkNode ⟨⟨"evoli", "https://x/133/"⟩, [linChainChild ⟨"aquali", "https://x/134/"⟩ []]⟩
    ∧ walkNode ⟨⟨"evoli", "https://x/133/"⟩, [linChainChild ⟨"aquali", "https://x/134/"⟩ []]⟩ =
      evoOf ⟨"evoli", "https://x/133/"⟩ :: walkNode (linChainNode ⟨"aquali", "https://x/134/"⟩ [])
    ∧ walkNode ⟨⟨"melo", "https://x/35/"⟩, []⟩ = [evoOf ⟨"melo", "https://x/35/"⟩] :=
  ⟨C4_first_branch_walk.1 _ [⟨"herbizarre", "https://pokeapi.co/api/v2/pokemon-species/2/"⟩,
      ⟨"florizarre", "https://pokeapi.co/api/v2/pokemon-species/3/"⟩],
   C4_first_branch_walk.2.1 ⟨"evoli", "https://x/133/"⟩ _
      [linChainChild ⟨"voltali", "https://x/135/"⟩ []] [],
   C4_first_branch_walk.2.2.1 _ _ _ _ rfl,
   C4_first_branch_walk.2.2.2 _⟩

/-- C5: the evolution walk terminates on every decoded input and is
bounded: the number of emitted entries never exceeds the size of the
decoded chain value. `walkNode` is a total function defined by
well-founded recursion on `nodeSize` (each re-decoded first child is
strictly smaller), and a decoded JSON response is always a finite tree,
so malformed or cyclic remote data cannot make the walk diverge. -/
theorem C5_walk_terminates_bounded (n : Node) : (walkNode n).length ≤ nodeSize n :=
  walkNode_length n

/-- C8: once the chain resource has been decoded, the walk never produces
an error: an `ok` chain always yields an `ok` result; a node whose
species-URL trailing segment does not parse as an unsigned integer is
still emitted (with identifier 0 and empty image) and the walk proceeds
to its first child when that child re-decodes; a first child that fails
to re-decode ends the walk early with the path accumulated so far. -/
theorem C8_decoded_never_errors (chain : Node) (c : Child) (tl : List Child) :
    pokemonEvolutions (Except.ok chain) = Except.ok (walkNode chain)
    ∧ (parseUint64 (lastSegment chain.species.url) = none →
        (walkNode chain).head? = some ⟨chain.species.name, 0, ""⟩)
    ∧ (chain.evolvesTo = c :: tl → ∀ n2, decodeNode c = some n2 →
        walkNode chain = evoOf chain.species :: walkNode n2)
    ∧ (chain.evolvesTo = c :: tl → decodeNode c = none →
        walkNode chain = [evoOf chain.species]) := by
  refine ⟨rfl, fun hp => ?_, fun hev n2 hd => walkNode_cons_ok hev hd,
    fun hev hd => walkNode_cons_fail hev hd⟩
  rw [walkNode_head, evoOf_parse_fail hp]

/-- Witness for C8: a root with the non-numeric URL segment "abc" is
emitted with identifier 0 and empty image and the walk continues into its
decodable child; a child holding a raw JSON number fails to re-decode and
the walk stops with just the root. -/
theorem C8_witness :
    pokemonEvolutions (Except.ok ⟨⟨"weird", "https://pokeapi.co/api/v2/pokemon-species/abc"⟩,
        [linChainChild ⟨"next", "https://x/7/"⟩ []]⟩) =
      Except.ok (walkNode ⟨⟨"weird", "https://pokeapi.co/api/v2/pokemon-species/abc"⟩,
        [linChainChild ⟨"next", "https://x/7/"⟩ []]⟩)
    ∧ (walkNode ⟨⟨"weird", "https://pokeapi.co/api/v2/pokemon-species/abc"⟩,
        [linChainChild ⟨"next", "https://x/7/"⟩ []]⟩).head? = some ⟨"weird", 0, ""⟩
    ∧ walkNode ⟨⟨"weird", "https://pokeapi.co/api/v2/pokemon-species/abc"⟩,
        [linChainChild ⟨"next", "https://x/7/"⟩ []]⟩ =
      evoOf ⟨"weird", "https://pokeapi.co/api/v2/pokemon-species/abc"⟩ ::
        walkNode (linChainNode ⟨"next", "https://x/7/"⟩ [])
    ∧ walkNode ⟨⟨"weird", "https://pokeapi.co/api/v2/pokemon-species/abc"⟩,
        [⟨⟨"x", "u"⟩, [Json.num 3]⟩]⟩ =
      [evoOf ⟨"weird", "https://pokeapi.co/api/v2/pokemon-species/abc"⟩] :=
  ⟨(C8_decoded_never_errors _ (linChainChild ⟨"next", "https://x/7/"⟩ []) []).1,
   (C8_decoded_never_errors ⟨⟨"weird", "https://pokeapi.co/api/v2/pokemon-species/abc"⟩,
      [linChainChild ⟨"next", "https://x/7/"⟩ []]⟩
      (linChainChild ⟨"next", "https://x/7/"⟩ []) []).2.1 (by decide),
   (C8_decoded_never_errors ⟨⟨"weird", "https://pokeapi.co/api/v2/pokemon-species/abc"⟩,
      [linChainChild ⟨"next", "https://x/7/"⟩ []]⟩
      (linChainChild ⟨"next", "https://x/7/"⟩ []) []).2.2.1 rfl _ rfl,
   (C8_decoded_never_errors ⟨⟨"weird", "https://pokeapi.co/api/v2/pokemon-species/abc"⟩,
      [⟨⟨"x", "u"⟩, [Json.num 3]⟩]⟩ ⟨⟨"x", "u"⟩, [Json.num 3]⟩ []).2.2.2 rfl rfl⟩

/-- C10: whenever both fetches decode, the returned evolution sequence is
non-empty: the chain root is always the first emitted entry, even when
its name is empty or its URL has no parsable identifier (then the first
entry has identifier 0 and an empty image URL). -/
theorem C10_root_always_emitted (chain : Node) :
    pokemonEvolutions (Except.ok chain) = Except.ok (walkNode chain)
    ∧ walkNode chain ≠ []
    ∧ (walkNode chain).head? = some (evoOf chain.species)
    ∧ (parseUint64 (lastSegment chain.species.url) = none →
        (walkNode chain).head? = some ⟨chain.species.name, 0, ""⟩) := by
  refine ⟨rfl, walkNode_ne_nil chain, walkNode_head chain, fun hp => ?_⟩
  rw [walkNode_head, evoOf_parse_fail hp]

/-- Witness for C10 at a chain whose root has an empty name and a URL
with a non-numeric trailing segment. -/
theorem C10_witness :
    pokemonEvolutions (Except.ok ⟨⟨"", "https://x/abc"⟩, []⟩) =
      Except.ok (walkNode ⟨⟨"", "https://x/abc"⟩, []⟩)
    ∧ walkNode ⟨⟨"", "https://x/abc"⟩, []⟩ ≠ []
    ∧ (walkNode ⟨⟨"", "https://x/abc"⟩, []⟩).head? = some (evoOf ⟨"", "https://x/abc"⟩)
    ∧ (walkNode ⟨⟨"", "https://x/abc"⟩, []⟩).head? = some ⟨"", 0, ""⟩ :=
  have h := C10_root_always_emitted ⟨⟨"", "https://x/abc"⟩, []⟩
  ⟨h.1, h.2.1, h.2.2.1, h.2.2.2 (by decide)⟩

/-! ### Display-name resolution (`pokemonName`, main.go lines 126-180)

The two network calls are the boundary: `speciesRes` is the outcome of
fetching and decoding the species resource's `names` list, and
`fetchBase` is the (lazy) outcome of fetching and decoding the base
pokemon resource's `name` field, forced only when it is consulted. -/

/-- One decoded entry of the species `names` array: a display name with
its language tag. -/
structure NameEntry where
  name : String
  language : String
deriving Repr, DecidableEq

/-- The name-search loop of `pokemonName` (main.go lines 153-157): the
first entry whose language tag is "fr". -/
def findFrName : List NameEntry → Option String
  | [] => none
  | en :: rest => if en.language = "fr" then some en.name else findFrName rest

/-- Model of `pokemonName`: a species fetch or decode failure propagates;
otherwise the first French entry is returned, and only if none exists is
the base resource consulted (its failure propagating, its name returned). -/
def pokemonName (speciesRes : Except String (List NameEntry))
    (fetchBase : Unit → Except String String) : Except String String :=
  match speciesRes with
  | .error e => .error e
  | .ok names =>
      match findFrName names with
      | some n => .ok n
      | none => fetchBase ()

/-- A list containing a French entry makes the search succeed with the
name of a French entry of the list. -/
theorem findFrName_of_exists {names : List NameEntry}
    (h : ∃ en ∈ names, en.language = "fr") :
    ∃ en ∈ names, en.language = "fr" ∧ findFrName names = some en.name := by
  induction names with
  | nil => obtain ⟨en, hm, _⟩ := h; cases hm
  | cons e rest ih =>
      by_cases he : e.language = "fr"
      · exact ⟨e, List.mem_cons_self _ _, he, by rw [findFrName, if_pos he]⟩
      · obtain ⟨en, hm, hfr⟩ := h
        rcases List.mem_cons.mp hm with rfl | hm2
        · exact absurd hfr he
        · obtain ⟨en2, hm3, hfr2, hfind⟩ := ih ⟨en, hm2, hfr⟩
          exact ⟨en2, List.mem_cons_of_mem _ hm3, hfr2, by rw [findFrName, if_neg he, hfind]⟩

/-- C9: `pokemonName` returns the name of an entry with language tag "fr"
when one exists, without consulting the base resource (the result is the
same for every value of the second fetch); with no French entry it
returns the base resource's name field; it errors exactly when an HTTP
call fails or a response fails to decode (here: the species result is an
error, or no French entry exists and the base result is an error). -/
theorem C9_pokemonName (names : List NameEntry)
    (f g : Unit → Except String String) (e : String) :
    pokemonName (Except.error e) f = Except.error e
    ∧ ((∃ en ∈ names, en.language = "fr") →
        ∃ en ∈ names, en.language = "fr"
          ∧ pokemonName (Except.ok names) f = Except.ok en.name
          ∧ pokemonName (Except.ok names) f = pokemonName (Except.ok names) g)
    ∧ (findFrName names = none → pokemonName (Except.ok names) f = f ())
    ∧ ((∃ err, pokemonName (Except.ok names) f = Except.error err) ↔
        findFrName names = none ∧ ∃ err, f () = Except.error err) := by
  refine ⟨rfl, fun h => ?_, fun h => by simp [pokemonName, h], ?_⟩
  · obtain ⟨en, hm, hfr, hfind⟩ := findFrName_of_exists h
    exact ⟨en, hm, hfr, by simp [pokemonName, hfind], by simp [pokemonName, hfind]⟩
  · constructor
    · rintro ⟨err, heq⟩
      cases hf : findFrName names with
      | none =>
          simp only [pokemonName, hf] at heq
          exact ⟨rfl, err, heq⟩
      | some n =>
          simp only [pokemonName, hf] at heq
          cases heq
    · rintro ⟨hnone, err, herr⟩
      exact ⟨err, by simp [pokemonName, hnone, herr]⟩

/-- Witness for C9: a species failure is fatal; a list with a French
entry resolves from it whatever the base fetch would do; a list without
a French entry falls back to the base name. -/
theorem C9_witness :
    pokemonName (Except.error "down") (fun _ => Except.ok "pikachu") = Except.error "down"
    ∧ (∃ en ∈ [NameEntry.mk "Pikachu" "en", NameEntry.mk "Pikachu-fr" "fr"],
        en.language = "fr"
        ∧ pokemonName (Except.ok [NameEntry.mk "Pikachu" "en", NameEntry.mk "Pikachu-fr" "fr"])
            (fun _ => Except.ok "pikachu") = Except.ok en.name
        ∧ pokemonName (Except.ok [NameEntry.mk "Pikachu" "en", NameEntry.mk "Pikachu-fr" "fr"])
            (fun _ => Except.ok "pikachu") =
          pokemonName (Except.ok [NameEntry.mk "Pikachu" "en", NameEntry.mk "Pikachu-fr" "fr"])
            (fun _ => Except.error "boom"))
    ∧ pokemonName (Except.ok [NameEntry.mk "Pikachu" "en"]) (fun _ => Except.ok "pikachu") =
        Except.ok "pikachu" :=
  ⟨(C9_pokemonName [] (fun _ => Except.ok "pikachu") (fun _ => Except.error "boom") "down").1,
   (C9_pokemonName [NameEntry.mk "Pikachu" "en", NameEntry.mk "Pikachu-fr" "fr"]
      (fun _ => Except.ok "pikachu") (fun _ => Except.error "boom") "down").2.1 (by decide),
   (C9_pokemonName [NameEntry.mk "Pikachu" "en"]
      (fun _ => Except.ok "pikachu") (fun _ => Except.error "boom") "down").2.2.1 (by decide)⟩

/-! ### Radar polygon (`radarPath`, main.go lines 220-236)

The source computes with float64 and serializes each coordinate with
"%.2f". The geometry is embedded over the real numbers and the 2-decimal
serialization as exact rounding to hundredths (`round2`); this is the
standard idealization of the floating-point evaluation, which agrees with
it on all values considered here. The serialized points string is
represented as the ordered list of rounded coordinate pairs. -/

/-- Rounding to 2 decimal digits, modelling the "%.2f" serialization. -/
noncomputable def round2 (x : ℝ) : ℝ := (round (100 * x) : ℤ) / 100

/-- Coordinates of vertex `i` of `count` for a given percent (the loop
body of `radarPath`): angle `-π/2 + 2·π·i/count` from the center (60, 60)
at radius `percent/100 · 45`. -/
noncomputable def radarPoint (count i : Nat) (percent : Int) : ℝ × ℝ :=
  let angle := -(Real.pi / 2) + 2 * Real.pi * i / count
  let r := (percent : ℝ) / 100 * 45
  (60 + r * Real.cos angle, 60 + r * Real.sin angle)

/-- Model of `radarPath`: one rounded coordinate pair per stat, in input
order; the empty input yields the empty output (the source returns ""). -/
noncomputable def radarPath (stats : List Stat) : List (ℝ × ℝ) :=
  stats.enum.map (fun p =>
    (round2 (radarPoint stats.length p.1 p.2.percent).1,
     round2 (radarPoint stats.length p.1 p.2.percent).2))

/-- Rounding to hundredths is the identity on integers. -/
theorem round2_intCast (n : ℤ) : round2 ((n : ℤ) : ℝ) = n := by
  rw [round2]
  have : (100 : ℝ) * (n : ℝ) = ((100 * n : ℤ) : ℝ) := by push_cast; ring
  rw [this, round_intCast]
  push_cast
  ring

/-- C7: `radarPath` of the empty stat list is empty; otherwise it yields
exactly one coordinate pair per stat, vertex `i` of `count` having angle
`-π/2 + 2·π·i/count`, radius `percent/100 · 45`, `x = 60 + radius·cos`,
`y = 60 + radius·sin`, each coordinate rounded to 2 decimals; a single
stat of percent 100 yields exactly the point (60, 15). -/
theorem C7_radar (stats : List Stat) (i : Nat) (hi : i < stats.length) :
    radarPath [] = []
    ∧ (radarPath stats).length = stats.length
    ∧ (radarPath stats).getD i (0, 0) =
        (round2 (60 + ((stats.getD i ⟨"", 0, 0⟩).percent : ℝ) / 100 * 45 *
            Real.cos (-(Real.pi / 2) + 2 * Real.pi * i / stats.length)),
         round2 (60 + ((stats.getD i ⟨"", 0, 0⟩).percent : ℝ) / 100 * 45 *
            Real.sin (-(Real.pi / 2) + 2 * Real.pi * i / stats.length)))
    ∧ (∀ nm b, radarPath [⟨nm, b, 100⟩] = [(60, 15)]) := by
  refine ⟨rfl, by simp [radarPath], ?_, fun nm b => ?_⟩
  · have hi2 : i < (radarPath stats).length := by simp [radarPath]; exact hi
    rw [List.getD_eq_getElem _ _ hi2]
    have hi3 : i < stats.enum.length := by simp; exact hi
    simp only [radarPath, List.getElem_map, List.getElem_enum, radarPoint]
    rw [List.getD_eq_getElem _ _ hi]
  · have h0 : radarPath [(⟨nm, b, 100⟩ : Stat)] =
        [(round2 (radarPoint 1 0 100).1, round2 (radarPoint 1 0 100).2)] := rfl
    rw [h0]
    have hcos : (radarPoint 1 0 100).1 = 60 := by
      simp [radarPoint, Real.cos_neg, Real.cos_pi_div_two]
    have hsin : (radarPoint 1 0 100).2 = 15 := by
      simp [radarPoint, Real.sin_neg, Real.sin_pi_div_two]
      norm_num
    rw [hcos, hsin]
    have h60 : round2 60 = 60 := by
      have := round2_intCast 60
      norm_num at this
      exact this
    have h15 : round2 15 = 15 := by
      have := round2_intCast 15
      norm_num at this
      exact this
    rw [h60, h15]

/-- Witness for C7 at the single-stat list with percent 100, vertex 0. -/
theorem C7_witness :
    radarPath [] = []
    ∧ (radarPath [(⟨"hp", 255, 100⟩ : Stat)]).length = [(⟨"hp", 255, 100⟩ : Stat)].length
    ∧ (radarPath [(⟨"hp", 255, 100⟩ : Stat)]).getD 0 (0, 0) =
        (round2 (60 + (([(⟨"hp", 255, 100⟩ : Stat)].getD 0 ⟨"", 0, 0⟩).percent : ℝ) / 100 * 45 *
            Real.cos (-(Real.pi / 2) +
              2 * Real.pi * (0 : Nat) / [(⟨"hp", 255, 100⟩ : Stat)].length)),
         round2 (60 + (([(⟨"hp", 255, 100⟩ : Stat)].getD 0 ⟨"", 0, 0⟩).percent : ℝ) / 100 * 45 *
            Real.sin (-(Real.pi / 2) +
              2 * Real.pi * (0 : Nat) / [(⟨"hp", 255, 100⟩ : Stat)].length)))
    ∧ (∀ nm b, radarPath [⟨nm, b, 100⟩] = [(60, 15)]) :=
  C7_radar [⟨"hp", 255, 100⟩] 0 (by decide)

/-! ### Request handler (`index`, main.go lines 68-116)

The handler is modelled on the decision structure that follows the
(always succeeding for the embedded template) template parse: the three
catalog results arrive as `Except` values; logging is not modelled. -/

/-- The template parameters assembled by the handler (main.go lines
22-30), with the radar points as the list of rounded pairs. -/
structure IndexParams where
  pokemonID : Nat
  pokemonName : String
  stats : List Stat
  radarPoints : List (ℝ × ℝ)
  evolutions : List Evolution
  name : String
  version : String

/-- Outcome of a request: an HTTP 500 with no page, or a rendered page. -/
inductive Response where
  | serverError
  | page (p : IndexParams)

/-- Model of `index`: the identifier is computed from the query name with
range 151; a display-name failure ends the request with a server error;
a stats failure leaves the stat list empty (nil) and the radar points are
computed from whatever stat list resulted; an evolutions failure leaves
the evolution list empty; the page renders with the remaining data. -/
noncomputable def index (name version : String)
    (nameRes : Except String String)
    (statsRes : Except String (List Stat))
    (evoRes : Except String (List Evolution)) : Response :=
  match nameRes with
  | .error _ => .serverError
  | .ok pname =>
      let stats := match statsRes with
                   | .error _ => []
                   | .ok s => s
      let evos := match evoRes with
                  | .error _ => []
                  | .ok evs => evs
      .page ⟨pokemonID name 151, pname, stats, radarPath stats, evos, name, version⟩

/-- C6: a display-name fetch failure is fatal (server error, no page
rendered) whatever the other two results are; with the display name
available, a stats failure degrades the stat section (and hence the radar
points) to empty, an evolutions failure degrades the evolution section to
empty, and the page still renders with the remaining data; with all three
available the page carries all of them. -/
theorem C6_error_policy (name version pname e : String)
    (statsRes : Except String (List Stat)) (evoRes : Except String (List Evolution)) :
    index name version (Except.error e) statsRes evoRes = Response.serverError
    ∧ (∀ stats evs, index name version (Except.ok pname) (Except.ok stats) (Except.ok evs) =
        Response.page ⟨pokemonID name 151, pname, stats, radarPath stats, evs, name, version⟩)
    ∧ (∀ evs, index name version (Except.ok pname) (Except.error e) (Except.ok evs) =
        Response.page ⟨pokemonID name 151, pname, [], radarPath [], evs, name, version⟩)
    ∧ (∀ stats, index name version (Except.ok pname) (Except.ok stats) (Except.error e) =
        Response.page ⟨pokemonID name 151, pname, stats, radarPath stats, [], name, version⟩)
    ∧ radarPath [] = [] :=
  ⟨rfl, fun _ _ => rfl, fun _ => rfl, fun _ => rfl, rfl⟩

end QuelPoke
